import Mathlib

set_option linter.unusedVariables false

/-!
Shallow embedding of the network-visualization core of the m3u-library-manager
repository, together with proofs settling the frozen claims about it.

The embedding covers:
* `DataProcessor` (static/js/network/core/data-processor.js): degree counting,
  node sizing, edge resolution;
* `NetworkSimulation` (static/js/network/core/simulation.js): the tick loop of
  the d3 force simulation together with the wrapper's callback bookkeeping;
* `NetworkRenderer.animateColorTransition` (static/js/network/core/renderer.js):
  the color-flow wave scheduling, including the shadowed `const targetColor`;
* `EventManager` (static/js/network/core/events.js);
* `NetworkVisualization` (static/js/network/core/network.js): the selection
  state machine, the serialized transition queue and `updateData`.

Machine numbers of the source (IEEE doubles) are modelled as exact rationals;
`Math.pow` with a fractional exponent, `Math.random` and the random color
generator are uninterpreted parameters collected in `Env`.
-/

namespace NetworkViz

/-- A JavaScript value as it can appear in a `value` field of a raw node or
edge record: a (finite) number, a truthy non-numeric value such as the string
"abc" (whose `parseFloat` is `NaN`), or `undefined`. -/
inductive JsVal where
  | num (q : ℚ)
  | nonNum
  | missing
deriving DecidableEq

/-- `parseFloat(v)` when the result is tested with `isNaN`: a number parses to
itself, a non-numeric value and `undefined` parse to `NaN` (modelled `none`). -/
def JsVal.parseFloat : JsVal → Option ℚ
  | .num q => some q
  | .nonNum => none
  | .missing => none

/-- The JavaScript expression `v || 1`: falsy values (`0`, `undefined`) are
replaced by `1`; a truthy non-numeric value is kept. -/
def JsVal.orOne : JsVal → JsVal
  | .num q => if q = 0 then .num 1 else .num q
  | .nonNum => .nonNum
  | .missing => .num 1

/-- `Map.prototype.get` of a JavaScript `Map` modelled as an association list
(insertion order, unique keys). -/
def jsMapGet {α : Type} : List (String × α) → String → Option α
  | [], _ => none
  | (k2, v) :: rest, k => if k2 = k then some v else jsMapGet rest k

/-- `Map.prototype.set`: replaces the value of an existing key in place,
otherwise appends the new entry. -/
def jsMapSet {α : Type} : List (String × α) → String → α → List (String × α)
  | [], k, v => [(k, v)]
  | (k2, v2) :: rest, k, v =>
      if k2 = k then (k2, v) :: rest else (k2, v2) :: jsMapSet rest k v

theorem jsMapGet_jsMapSet {α : Type} (m : List (String × α)) (k k2 : String) (v : α) :
    jsMapGet (jsMapSet m k v) k2 = if k = k2 then some v else jsMapGet m k2 := by
  induction m with
  | nil =>
      by_cases h : k = k2 <;> simp [jsMapSet, jsMapGet, h]
  | cons kv rest ih =>
      obtain ⟨k3, v3⟩ := kv
      by_cases h3 : k3 = k
      · subst h3
        by_cases h : k3 = k2 <;> simp [jsMapSet, jsMapGet, h]
      · by_cases h : k3 = k2
        · subst h
          have hne : ¬ k = k3 := fun hh => h3 hh.symm
          simp [jsMapSet, jsMapGet, h3, hne]
        · simp [jsMapSet, jsMapGet, h3, h, ih]

/-- A raw edge record of the input data contract:
`{ from: string, to: string, value?: number }`. -/
structure RawEdge where
  fromId : String
  toId : String
  value : JsVal
deriving DecidableEq

/-- A raw node record of the input data contract:
`{ id: string, label: string, value?: number, color?: string }`. -/
structure RawNode where
  id : String
  label : String
  value : JsVal
  color : Option String
deriving DecidableEq

/-- One iteration of the loop body of `_calculateNodeDegrees`: increment the
counter of `edge.from`, then of `edge.to`, in the degree map. -/
def degreeStep (m : List (String × ℕ)) (e : RawEdge) : List (String × ℕ) :=
  let m1 := jsMapSet m e.fromId ((jsMapGet m e.fromId).getD 0 + 1)
  jsMapSet m1 e.toId ((jsMapGet m1 e.toId).getD 0 + 1)

/-- `_calculateNodeDegrees(edges)`: the `nodeDegrees` map rebuilt from scratch
by one scan over the raw edges, incrementing a counter for both `from` and
`to` of every edge. -/
def calculateNodeDegrees (edges : List RawEdge) : List (String × ℕ) :=
  edges.foldl degreeStep []

/-- Degree lookup `this.nodeDegrees.get(id) || 0`. -/
def degreeOf (m : List (String × ℕ)) (id : String) : ℕ :=
  (jsMapGet m id).getD 0

/-- How many times `id` occurs as an endpoint (in the `from` role or in the
`to` role) among the raw edges. -/
def endpointOccurrences (edges : List RawEdge) (id : String) : ℕ :=
  (edges.map RawEdge.fromId).count id + (edges.map RawEdge.toId).count id

theorem degreeOf_degreeStep (m : List (String × ℕ)) (e : RawEdge) (id : String) :
    degreeOf (degreeStep m e) id =
      degreeOf m id + (if e.fromId = id then 1 else 0) + (if e.toId = id then 1 else 0) := by
  unfold degreeStep degreeOf
  by_cases hf : e.fromId = id <;> by_cases ht : e.toId = id <;>
    simp [jsMapGet_jsMapSet, hf, ht]

theorem degreeOf_foldl (edges : List RawEdge) (m : List (String × ℕ)) (id : String) :
    degreeOf (edges.foldl degreeStep m) id = degreeOf m id + endpointOccurrences edges id := by
  induction edges generalizing m with
  | nil => simp [endpointOccurrences]
  | cons e rest ih =>
      simp only [List.foldl_cons, ih, degreeOf_degreeStep, endpointOccurrences,
        List.map_cons, List.count_cons]
      by_cases hf : e.fromId = id <;> by_cases ht : e.toId = id <;>
        simp [hf, ht] <;> omega

theorem degreeOf_calculateNodeDegrees (edges : List RawEdge) (id : String) :
    degreeOf (calculateNodeDegrees edges) id = endpointOccurrences edges id := by
  have h := degreeOf_foldl edges [] id
  simpa [calculateNodeDegrees, degreeOf, jsMapGet] using h

/-- The functions of the source that have no exact rational meaning, collected
as uninterpreted parameters: `Math.pow` with a fractional exponent, the random
color generator and `Math.random()*1000` position streams (indexed by the node
position in the input list), and the IEEE `NaN` where it leaks into a numeric
field. -/
structure Env where
  powQ : ℚ → ℚ → ℚ
  randColor : ℕ → String
  randX : ℕ → ℚ
  randY : ℕ → ℚ
  nanQ : ℚ

/-- The numeric values of the dataset used for the size scale:
`allNodes.map(d => parseFloat(d.value)).filter(v => !isNaN(v))`. -/
def validValues (nodes : List RawNode) : List ℚ :=
  nodes.filterMap (fun d => d.value.parseFloat)

/-- `Math.max(a, b)` on finite doubles (written with an explicit `if` so that
concrete rational instances evaluate by kernel reduction). -/
def qmax (a b : ℚ) : ℚ := if a ≤ b then b else a

/-- `Math.min(a, b)` on finite doubles. -/
def qmin (a b : ℚ) : ℚ := if b ≤ a then b else a

/-- `Math.max(...l)` for a non-empty list (the default is never consulted at
the call sites, which guard against the empty list). -/
def jsMax (l : List ℚ) (dflt : ℚ) : ℚ :=
  match l with
  | [] => dflt
  | x :: xs => xs.foldl qmax x

/-- `Math.min(...l)` for a non-empty list. -/
def jsMin (l : List ℚ) (dflt : ℚ) : ℚ :=
  match l with
  | [] => dflt
  | x :: xs => xs.foldl qmin x

/-- `d3.scaleLinear().domain([a,b]).range([c,d]).clamp(true)` applied to `v`:
the input is clamped to the domain, then interpolated linearly; d3 maps a
degenerate domain (`a = b`) to the midpoint of the range. -/
def scaleLinearClamp (a b c d v : ℚ) : ℚ :=
  if b = a then c + (d - c) / 2
  else
    let vc := qmax a (qmin b v)
    c + (vc - a) * (d - c) / (b - a)

/-- `_calculateNodeSize(value, allNodes)` (the call site passes
`node.value || 1` for `value`): non-numeric value → 12; single-node dataset →
12; no parseable values → 12; all parseable values equal → 30; otherwise the
clamped linear scale from `[minValue, maxValue]` to `[12, 48]`. -/
def calculateNodeSize (value : JsVal) (allNodes : List RawNode) : ℚ :=
  match value.parseFloat with
  | none => 12
  | some nodeValue =>
    if allNodes.length = 1 then 12
    else
      let vv := validValues allNodes
      if vv = [] then 12
      else
        let maxValue := jsMax vv 0
        let minValue := jsMin vv 0
        if maxValue = minValue then (12 + 48) / 2
        else scaleLinearClamp minValue maxValue 12 48 nodeValue

/-- `_calculateImportance(size, degree)`:
`pow((size/48) * min(degree/10, 1), 1.5)`. -/
def calculateImportance (env : Env) (size : ℚ) (degree : ℕ) : ℚ :=
  let normalizedSize := size / 48
  let normalizedDegree := qmin ((degree : ℚ) / 10) 1
  env.powQ (normalizedSize * normalizedDegree) (3 / 2)

/-- `_calculateCollisionRadius(baseSize, degree)`:
`max(baseRadius * importanceMultiplier + degreeBonus, baseRadius)`. -/
def calculateCollisionRadius (env : Env) (baseSize : ℚ) (degree : ℕ) : ℚ :=
  let baseRadius := baseSize * (3 / 2)
  let degreeBonus := env.powQ (degree : ℚ) (7 / 10) * 2
  let importance := calculateImportance env baseSize degree
  let importanceMultiplier := 1 + importance * 2
  qmax (baseRadius * importanceMultiplier + degreeBonus) baseRadius

/-- A processed node entity as `_processNodes` builds it (the spread `...node`
keeps the raw fields; `metadata.degree` and `metadata.importance` are the two
metadata entries). -/
structure ProcNode where
  id : String
  label : String
  value : JsVal
  size : ℚ
  collisionRadius : ℚ
  color : String
  x : ℚ
  y : ℚ
  degree : ℕ
  importance : ℚ
deriving DecidableEq

/-- The body of the `nodes.map` callback of `_processNodes`, at position `i`
of the input list (the index feeds the uninterpreted random streams; raw input
nodes carry no `x`/`y`/`color` of their own unless `color` is provided). -/
def processOneNode (env : Env) (degrees : List (String × ℕ)) (allNodes : List RawNode)
    (i : ℕ) (node : RawNode) : ProcNode :=
  let baseSize := calculateNodeSize node.value.orOne allNodes
  let degree := degreeOf degrees node.id
  let importance := calculateImportance env baseSize degree
  { id := node.id
    label := node.label
    value := node.value
    size := baseSize
    collisionRadius := calculateCollisionRadius env baseSize degree
    color := node.color.getD (env.randColor i)
    x := env.randX i
    y := env.randY i
    degree := degree
    importance := importance }

/-- `_processNodes(nodes)` with the degree map already computed. -/
def processNodes (env : Env) (degrees : List (String × ℕ))
    (nodes : List RawNode) : List ProcNode :=
  nodes.enum.map (fun p => processOneNode env degrees nodes p.1 p.2)

/-- A processed edge entity: the spread `...edge` keeps the raw fields, and
`source`/`target` are the resolved node entities. -/
structure ProcEdge where
  fromId : String
  toId : String
  value : JsVal
  source : ProcNode
  target : ProcNode
  width : ℚ
  length : ℚ
deriving DecidableEq

/-- `_calculateEdgeWidth(value, allEdges)` (the call site passes
`edge.value || 1`): `!value || value < 1` yields 1; otherwise the clamped
linear scale over `[1, max edge value]` to `[1, 24]`. A truthy non-numeric
value slips past the guard and the scale yields `NaN`; d3.max skips values
that do not compare, modelled by scanning the parseable coalesced values. -/
def calculateEdgeWidth (env : Env) (value : JsVal) (allEdges : List RawEdge) : ℚ :=
  match value with
  | .missing => 1
  | .num q =>
      if q = 0 then 1
      else if q < 1 then 1
      else
        let maxEdgeValue := jsMax (allEdges.filterMap (fun d => d.value.orOne.parseFloat)) 1
        scaleLinearClamp 1 maxEdgeValue 1 24 q
  | .nonNum => env.nanQ

/-- The `console.error` text recorded for an edge whose endpoints do not
resolve. -/
def edgeErrMsg (e : RawEdge) : String :=
  "Invalid edge: " ++ e.fromId ++ " -> " ++ e.toId

/-- `new Map(processedNodes.map(node => [node.id, node]))`: later entries for
the same id overwrite earlier ones. -/
def mkNodeMap (pns : List ProcNode) : List (String × ProcNode) :=
  pns.foldl (fun m node => jsMapSet m node.id node) []

/-- `_processEdges(edges, processedNodes)`, fused with its trailing
`.filter(edge => edge !== null)`: each raw edge either resolves to a processed
edge or contributes a recorded `console.error` message; order is preserved. -/
def processEdges (env : Env) (nodeMap : List (String × ProcNode))
    (allEdges : List RawEdge) : List RawEdge → List ProcEdge × List String
  | [] => ([], [])
  | e :: rest =>
      let r := processEdges env nodeMap allEdges rest
      match jsMapGet nodeMap e.fromId, jsMapGet nodeMap e.toId with
      | some source, some target =>
          let visualWidth := calculateEdgeWidth env e.value.orOne allEdges
          let baseLength : ℚ := 200
          let lengthMultiplier := 1 + qmax source.importance target.importance * 2
          ({ fromId := e.fromId
             toId := e.toId
             value := e.value
             source := source
             target := target
             width := visualWidth
             length := baseLength * lengthMultiplier } :: r.1, r.2)
      | some _, none => (r.1, edgeErrMsg e :: r.2)
      | none, _ => (r.1, edgeErrMsg e :: r.2)

/-- The result of `processData`, together with the `console.error` log of the
dropped edges. -/
structure ProcessedData where
  processedNodes : List ProcNode
  processedEdges : List ProcEdge
  edgeErrors : List String
deriving DecidableEq

/-- `DataProcessor.processData(nodes, edges)`: degrees first, then nodes,
then edges resolved against the processed node map. -/
def processData (env : Env) (nodes : List RawNode) (edges : List RawEdge) : ProcessedData :=
  let degrees := calculateNodeDegrees edges
  let processedNodes := processNodes env degrees nodes
  let r := processEdges env (mkNodeMap processedNodes) edges edges
  { processedNodes := processedNodes
    processedEdges := r.1
    edgeErrors := r.2 }

theorem jsMapGet_jsMapSet_cases {α : Type} (m : List (String × α)) (k k2 : String)
    (v w : α) (h : jsMapGet (jsMapSet m k v) k2 = some w) :
    w = v ∨ jsMapGet m k2 = some w := by
  rw [jsMapGet_jsMapSet] at h
  by_cases hk : k = k2
  · simp [hk] at h
    exact Or.inl h.symm
  · simp [hk] at h
    exact Or.inr h

theorem foldl_jsMapSet_get_mem (pns : List ProcNode) :
    ∀ (m : List (String × ProcNode)) (k : String) (v : ProcNode),
      jsMapGet (pns.foldl (fun m node => jsMapSet m node.id node) m) k = some v →
      v ∈ pns ∨ jsMapGet m k = some v := by
  induction pns with
  | nil => intro m k v hm; exact Or.inr hm
  | cons n rest ih =>
      intro m k v hm
      simp only [List.foldl_cons] at hm
      rcases ih (jsMapSet m n.id n) k v hm with h2 | h2
      · exact Or.inl (List.mem_cons_of_mem _ h2)
      · rcases jsMapGet_jsMapSet_cases m n.id k n v h2 with h3 | h3
        · subst h3; exact Or.inl (List.mem_cons_self _ _)
        · exact Or.inr h3

theorem mkNodeMap_get_mem (pns : List ProcNode) (k : String) (v : ProcNode)
    (h : jsMapGet (mkNodeMap pns) k = some v) : v ∈ pns := by
  rcases foldl_jsMapSet_get_mem pns [] k v h with h2 | h2
  · exact h2
  · simp [jsMapGet] at h2

theorem processEdges_resolved (env : Env) (nodeMap : List (String × ProcNode))
    (allEdges : List RawEdge) (l : List RawEdge) :
    ∀ pe ∈ (processEdges env nodeMap allEdges l).1,
      jsMapGet nodeMap pe.fromId = some pe.source ∧
      jsMapGet nodeMap pe.toId = some pe.target := by
  induction l with
  | nil => intro pe hpe; simp [processEdges] at hpe
  | cons e rest ih =>
      intro pe hpe
      simp only [processEdges] at hpe
      cases hf : jsMapGet nodeMap e.fromId with
      | none =>
          simp [hf] at hpe
          exact ih pe hpe
      | some source =>
          cases ht : jsMapGet nodeMap e.toId with
          | none =>
              simp [hf, ht] at hpe
              exact ih pe hpe
          | some target =>
              simp [hf, ht] at hpe
              rcases hpe with hpe | hpe
              · subst hpe; exact ⟨hf, ht⟩
              · exact ih pe hpe

theorem processEdges_length (env : Env) (nodeMap : List (String × ProcNode))
    (allEdges : List RawEdge) (l : List RawEdge) :
    (processEdges env nodeMap allEdges l).1.length
      + (processEdges env nodeMap allEdges l).2.length = l.length := by
  induction l with
  | nil => simp [processEdges]
  | cons e rest ih =>
      simp only [processEdges]
      cases hf : jsMapGet nodeMap e.fromId with
      | none => simp [hf]; omega
      | some source =>
          cases ht : jsMapGet nodeMap e.toId with
          | none => simp [hf, ht]; omega
          | some target => simp [hf, ht]; omega

theorem processEdges_errors (env : Env) (nodeMap : List (String × ProcNode))
    (allEdges : List RawEdge) (l : List RawEdge) :
    ∀ e ∈ l,
      (jsMapGet nodeMap e.fromId = none ∨ jsMapGet nodeMap e.toId = none) →
      edgeErrMsg e ∈ (processEdges env nodeMap allEdges l).2 := by
  induction l with
  | nil => intro e he; simp at he
  | cons e2 rest ih =>
      intro e he hbad
      simp only [List.mem_cons] at he
      simp only [processEdges]
      rcases he with he | he
      · subst he
        rcases hbad with hbad | hbad
        · simp [hbad]
        · cases hf : jsMapGet nodeMap e.fromId with
          | none => simp [hf]
          | some source => simp [hf, hbad]
      · have hmem := ih e he hbad
        cases hf : jsMapGet nodeMap e2.fromId with
        | none => simp [hf]; exact Or.inr hmem
        | some source =>
            cases ht : jsMapGet nodeMap e2.toId with
            | none => simp [hf, ht]; exact Or.inr hmem
            | some target => simp [hf, ht]; exact hmem

theorem mem_enumFrom_snd {α : Type} :
    ∀ (k : ℕ) (l : List α) (p : ℕ × α), p ∈ List.enumFrom k l → p.2 ∈ l := by
  intro k l
  induction l generalizing k with
  | nil => intro p hp; simp [List.enumFrom] at hp
  | cons x xs ih =>
      intro p hp
      simp only [List.enumFrom, List.mem_cons] at hp
      rcases hp with hp | hp
      · subst hp; exact List.mem_cons_self _ _
      · exact List.mem_cons_of_mem _ (ih (k + 1) p hp)

theorem mem_processNodes (env : Env) (degrees : List (String × ℕ))
    (nodes : List RawNode) (pn : ProcNode)
    (h : pn ∈ processNodes env degrees nodes) :
    ∃ n ∈ nodes, pn.size = calculateNodeSize n.value.orOne nodes := by
  simp only [processNodes, List.mem_map] at h
  obtain ⟨p, hp, hpn⟩ := h
  refine ⟨p.2, mem_enumFrom_snd 0 nodes p hp, ?_⟩
  subst hpn
  rfl

theorem calculateNodeSize_single (v : JsVal) (nodes : List RawNode)
    (h : nodes.length = 1) : calculateNodeSize v nodes = 12 := by
  unfold calculateNodeSize
  cases hv : v.parseFloat with
  | none => rfl
  | some q => simp [h]

theorem filterMap_const_some {α : Type} (c : ℚ) (f : α → Option ℚ) :
    ∀ (l : List α), (∀ x ∈ l, f x = some c) →
      l.filterMap f = List.replicate l.length c := by
  intro l
  induction l with
  | nil => intro _; simp
  | cons x xs ih =>
      intro h
      have hx := h x (List.mem_cons_self _ _)
      have hxs := fun y hy => h y (List.mem_cons_of_mem _ hy)
      simp [List.filterMap_cons, hx, ih hxs, List.replicate_succ]

theorem qmax_self (c : ℚ) : qmax c c = c := by simp [qmax]

theorem qmin_self (c : ℚ) : qmin c c = c := by simp [qmin]

theorem foldl_max_const (c : ℚ) :
    ∀ (l : List ℚ), (∀ x ∈ l, x = c) → l.foldl qmax c = c := by
  intro l
  induction l with
  | nil => intro _; rfl
  | cons x xs ih =>
      intro h
      have hx := h x (List.mem_cons_self _ _)
      subst hx
      simp only [List.foldl_cons, qmax_self]
      exact ih fun y hy => h y (List.mem_cons_of_mem _ hy)

theorem foldl_min_const (c : ℚ) :
    ∀ (l : List ℚ), (∀ x ∈ l, x = c) → l.foldl qmin c = c := by
  intro l
  induction l with
  | nil => intro _; rfl
  | cons x xs ih =>
      intro h
      have hx := h x (List.mem_cons_self _ _)
      subst hx
      simp only [List.foldl_cons, qmin_self]
      exact ih fun y hy => h y (List.mem_cons_of_mem _ hy)

theorem jsMax_replicate (k : ℕ) (c : ℚ) (h : k ≠ 0) :
    jsMax (List.replicate k c) 0 = c := by
  cases k with
  | zero => exact absurd rfl h
  | succ k2 =>
      simp only [List.replicate_succ, jsMax]
      exact foldl_max_const c _ (fun x hx => List.eq_of_mem_replicate hx)

theorem jsMin_replicate (k : ℕ) (c : ℚ) (h : k ≠ 0) :
    jsMin (List.replicate k c) 0 = c := by
  cases k with
  | zero => exact absurd rfl h
  | succ k2 =>
      simp only [List.replicate_succ, jsMin]
      exact foldl_min_const c _ (fun x hx => List.eq_of_mem_replicate hx)

theorem orOne_num (c : ℚ) :
    (JsVal.num c).orOne = JsVal.num (if c = 0 then 1 else c) := by
  by_cases hc : c = 0 <;> simp [JsVal.orOne, hc]

theorem calculateNodeSize_all_equal (nodes : List RawNode) (c : ℚ) (n : RawNode)
    (hlen : 2 ≤ nodes.length) (hall : ∀ m ∈ nodes, m.value.parseFloat = some c)
    (hn : n ∈ nodes) : calculateNodeSize n.value.orOne nodes = 30 := by
  have hnv : n.value = JsVal.num c := by
    have := hall n hn
    cases hv : n.value <;> simp [hv, JsVal.parseFloat] at this ⊢
    exact this
  have hvv : validValues nodes = List.replicate nodes.length c :=
    filterMap_const_some c _ nodes hall
  have hne : nodes.length ≠ 1 := by omega
  have hnz : nodes.length ≠ 0 := by omega
  have hmax : jsMax (validValues nodes) 0 = c := by rw [hvv]; exact jsMax_replicate _ c hnz
  have hmin : jsMin (validValues nodes) 0 = c := by rw [hvv]; exact jsMin_replicate _ c hnz
  have hvvne : ¬ validValues nodes = [] := by
    rw [hvv]
    intro h
    exact hnz (by simpa using congrArg List.length h)
  rw [hnv, orOne_num]
  simp only [calculateNodeSize, JsVal.parseFloat]
  rw [if_neg hne, if_neg hvvne, if_pos (hmax.trans hmin.symm)]
  norm_num

theorem calculateNodeSize_scale (v : JsVal) (nodes : List RawNode) (q : ℚ)
    (hq : v.orOne.parseFloat = some q) (hne1 : nodes.length ≠ 1)
    (hmm : jsMax (validValues nodes) 0 ≠ jsMin (validValues nodes) 0) :
    calculateNodeSize v.orOne nodes =
      scaleLinearClamp (jsMin (validValues nodes) 0) (jsMax (validValues nodes) 0) 12 48 q := by
  have hvvne : ¬ validValues nodes = [] := by
    intro h
    apply hmm
    rw [h]
    rfl
  unfold calculateNodeSize
  rw [hq]
  simp only
  rw [if_neg hne1, if_neg hvvne, if_neg hmm]

/-- A concrete instantiation of the uninterpreted parts of the environment,
used in evaluated scenarios (none of the evaluated facts depend on it). -/
def env0 : Env :=
  { powQ := fun _ _ => 0
    randColor := fun _ => "#808080"
    randX := fun _ => 0
    randY := fun _ => 0
    nanQ := 0 }

/-- The nodes of the spec's worked scenario:
`[{id:"a",value:1},{id:"b",value:10},{id:"c",value:10}]`. -/
def scenarioNodes : List RawNode :=
  [{ id := "a", label := "a", value := JsVal.num 1, color := none },
   { id := "b", label := "b", value := JsVal.num 10, color := none },
   { id := "c", label := "c", value := JsVal.num 10, color := none }]

/-- The edges of the spec's worked scenario: `[{from:"a",to:"b"},{from:"a",to:"c"}]`. -/
def scenarioEdges : List RawEdge :=
  [{ fromId := "a", toId := "b", value := JsVal.missing },
   { fromId := "a", toId := "c", value := JsVal.missing }]

/-- A two-node dataset exposing the `value || 1` coalescing: node "a" has the
legitimate numeric value 0, node "b" the value 2. -/
def zeroValueNodes : List RawNode :=
  [{ id := "a", label := "a", value := JsVal.num 0, color := none },
   { id := "b", label := "b", value := JsVal.num 2, color := none }]

/-- C8: degree computation. For every node id the degree recorded in the
`nodeDegrees` map equals the number of raw-edge endpoint occurrences of that
id, counting the `from` and the `to` role of every raw edge exactly once; in
the worked scenario (edges a→b and a→c) the processed degrees are
a = 2, b = 1, c = 1. -/
theorem C8_degree_counts :
    (∀ (edges : List RawEdge) (id : String),
        degreeOf (calculateNodeDegrees edges) id = endpointOccurrences edges id) ∧
    (processData env0 scenarioNodes scenarioEdges).processedNodes.map ProcNode.degree
      = [2, 1, 1] := by
  constructor
  · exact degreeOf_calculateNodeDegrees
  · decide

/-- C6: every processed edge has its resolved `source` and `target` present in
`processedNodes`; each raw edge either yields exactly one processed edge or
one recorded validation error (so unresolved edges are absent, never silently
included), and every edge whose `from` or `to` does not resolve against the
processed node map has its error recorded. `processEdges` is a total
function: no input makes it throw. -/
theorem C6_edge_resolution (env : Env) (nodes : List RawNode) (edges : List RawEdge) :
    (∀ pe ∈ (processData env nodes edges).processedEdges,
        pe.source ∈ (processData env nodes edges).processedNodes ∧
        pe.target ∈ (processData env nodes edges).processedNodes) ∧
    (processData env nodes edges).processedEdges.length
        + (processData env nodes edges).edgeErrors.length = edges.length ∧
    (∀ e ∈ edges,
      (jsMapGet (mkNodeMap (processData env nodes edges).processedNodes) e.fromId = none ∨
       jsMapGet (mkNodeMap (processData env nodes edges).processedNodes) e.toId = none) →
      edgeErrMsg e ∈ (processData env nodes edges).edgeErrors) := by
  refine ⟨?_, ?_, ?_⟩
  · intro pe hpe
    have h := processEdges_resolved env
      (mkNodeMap (processNodes env (calculateNodeDegrees edges) nodes)) edges edges pe hpe
    exact ⟨mkNodeMap_get_mem _ _ _ h.1, mkNodeMap_get_mem _ _ _ h.2⟩
  · exact processEdges_length env _ edges edges
  · intro e he hbad
    exact processEdges_errors env _ edges edges e he hbad

/-- A raw edge whose `to` endpoint matches no node of the scenario dataset. -/
def danglingEdge : RawEdge :=
  { fromId := "a", toId := "zz", value := JsVal.missing }

set_option maxHeartbeats 1000000 in
/-- C6 witness: in a concrete dataset with one resolvable and one dangling
edge, the dangling edge's error is recorded. -/
theorem C6_edge_resolution_witness :
    edgeErrMsg danglingEdge
      ∈ (processData env0 scenarioNodes (scenarioEdges ++ [danglingEdge])).edgeErrors := by
  have h := C6_edge_resolution env0 scenarioNodes (scenarioEdges ++ [danglingEdge])
  refine h.2.2 danglingEdge ?_ ?_
  · decide
  · decide

/-- C7 counterexample: the dataset `[{a, value: 0}, {b, value: 2}]` is in the
general branch (two nodes, parseable values 0 and 2, min 0 ≠ max 2, the sized
value parseable), yet node a's computed size is 30 while the clamped linear
scale of node a's value 0 over `[0, 2] → [12, 48]` — what the claim states —
is 12: `value || 1` replaces the legitimate value 0 by 1 before scaling. -/
theorem C7_node_size_counterexample :
    (processData env0 zeroValueNodes []).processedNodes.map ProcNode.size = [30, 48] ∧
    jsMin (validValues zeroValueNodes) 0 = 0 ∧
    jsMax (validValues zeroValueNodes) 0 = 2 ∧
    scaleLinearClamp 0 2 12 48 0 = 12 ∧
    (JsVal.num 0).parseFloat = some 0 ∧
    zeroValueNodes.length = 2 ∧
    (30 : ℚ) ≠ 12 := by
  refine ⟨?_, ?_, ?_, ?_, rfl, rfl, by norm_num⟩
  · norm_num [processData, processNodes, processOneNode, List.enum, List.enumFrom,
      calculateNodeSize, JsVal.orOne, JsVal.parseFloat, validValues, zeroValueNodes,
      jsMin, jsMax, qmin, qmax, scaleLinearClamp, List.filterMap,
      List.cons_ne_nil]
  · norm_num [validValues, zeroValueNodes, JsVal.parseFloat, jsMin, qmin, List.filterMap]
  · norm_num [validValues, zeroValueNodes, JsVal.parseFloat, jsMax, qmax, List.filterMap]
  · norm_num [scaleLinearClamp, qmax, qmin]

/-- C7 (amended): node size computation. Single-node dataset → every size is
12; at least two nodes all with equal parseable values → every size is 30; a
truthy non-numeric value → size 12; otherwise the size is the clamped linear
scale over `[minValue, maxValue]` of all nodes' parseable values to `[12, 48]`
of the node's value after the `value || 1` coalescing (so the value 0 and a
missing value are scaled as 1). -/
theorem C7_node_size (env : Env) (nodes : List RawNode) (edges : List RawEdge)
    (c q : ℚ) (v : JsVal) :
    (nodes.length = 1 →
      ∀ pn ∈ (processData env nodes edges).processedNodes, pn.size = 12) ∧
    (2 ≤ nodes.length → (∀ n ∈ nodes, n.value.parseFloat = some c) →
      ∀ pn ∈ (processData env nodes edges).processedNodes, pn.size = 30) ∧
    calculateNodeSize JsVal.nonNum.orOne nodes = 12 ∧
    (nodes.length ≠ 1 → v.orOne.parseFloat = some q →
      jsMax (validValues nodes) 0 ≠ jsMin (validValues nodes) 0 →
      calculateNodeSize v.orOne nodes =
        scaleLinearClamp (jsMin (validValues nodes) 0) (jsMax (validValues nodes) 0)
          12 48 q) := by
  refine ⟨?_, ?_, rfl, ?_⟩
  · intro hlen pn hpn
    obtain ⟨n, _, hsize⟩ := mem_processNodes env _ nodes pn hpn
    rw [hsize]
    exact calculateNodeSize_single _ nodes hlen
  · intro hlen hall pn hpn
    obtain ⟨n, hn, hsize⟩ := mem_processNodes env _ nodes pn hpn
    rw [hsize]
    exact calculateNodeSize_all_equal nodes c n hlen hall hn
  · intro hne1 hq hmm
    exact calculateNodeSize_scale v nodes q hq hne1 hmm

/-- The state of `NetworkSimulation` together with the d3 force simulation it
wraps. `alpha` decays exactly geometrically (`alpha += (0 - alpha) * alphaDecay`
with `alphaDecay = 0.02`, so `alpha ← alpha * 49/50` per step); it is carried
as the exact rational `alphaNum / alphaDen` in unreduced numerator/denominator
form so that concrete runs evaluate by kernel arithmetic. `d3Running` models
the wrapped d3 simulation's internal timer; `isRunning`, `tickCount` and
`maxTicks` are the wrapper's fields; `completeFired` counts the invocations of
the registered `stabilizationComplete` callback. -/
structure SimState where
  alphaNum : ℕ
  alphaDen : ℕ
  d3Running : Bool
  isRunning : Bool
  tickCount : ℕ
  maxTicks : ℕ
  completeFired : ℕ
deriving DecidableEq

/-- `alpha < alphaMin` with `alphaMin = 0.001`:
`alphaNum / alphaDen < 1 / 1000`, cross-multiplied. -/
def SimState.alphaBelowMin (s : SimState) : Bool :=
  decide (s.alphaNum * 1000 < s.alphaDen)

/-- `_onSimulationEnd()`: clears `isRunning` and invokes the completion
callback. Nothing guards against a second invocation within the same run, and
the d3 timer is not stopped here. -/
def onSimulationEnd (s : SimState) : SimState :=
  { s with isRunning := false, completeFired := s.completeFired + 1 }

/-- `_onTick()`: early return unless `isRunning`; increment `tickCount` (the
tick and progress callbacks fire here); on `tickCount >= maxTicks` invoke
`_onSimulationEnd`. -/
def onTick (s : SimState) : SimState :=
  if s.isRunning = false then s
  else
    let s2 := { s with tickCount := s.tickCount + 1 }
    if s2.maxTicks ≤ s2.tickCount then onSimulationEnd s2 else s2

/-- One step of the d3 force simulation's internal stepper while its timer
runs: decay `alpha`, dispatch the `tick` event (the wrapper's `_onTick`), and
once `alpha` has fallen below `alphaMin` stop the timer and dispatch `end`
(the wrapper's `_onSimulationEnd`). -/
def d3Step (s : SimState) : SimState :=
  if s.d3Running = false then s
  else
    let s2 := { s with alphaNum := s.alphaNum * 49, alphaDen := s.alphaDen * 50 }
    let s3 := onTick s2
    if s3.alphaBelowMin then onSimulationEnd { s3 with d3Running := false } else s3

/-- `restart()`: `isRunning := true`, `tickCount := 0`,
`simulation.alpha(1).restart()`. -/
def simRestart (s : SimState) : SimState :=
  { s with
    isRunning := true
    tickCount := 0
    alphaNum := 1
    alphaDen := 1
    d3Running := true }

/-- `stop()`: `isRunning := false` and `simulation.stop()` — the d3 timer
stops without dispatching `end`. -/
def simStop (s : SimState) : SimState :=
  { s with isRunning := false, d3Running := false }

/-- `setData(nodes, edges)`: assigns the spread-out initial positions,
replaces the node/link sets (not part of this state) and resets `tickCount`;
it does not start the run. -/
def simSetData (s : SimState) : SimState :=
  { s with tickCount := 0 }

/-- The simulation as the constructor leaves it: `alpha(0.5)`,
`alphaDecay(0.02)`, `alphaMin(0.001)`, `maxTicks = 300`, then `stop()`. -/
def initSim : SimState :=
  { alphaNum := 1
    alphaDen := 2
    d3Running := false
    isRunning := false
    tickCount := 0
    maxTicks := 300
    completeFired := 0 }

theorem d3Step_not_running (s : SimState) (h : s.d3Running = false) : d3Step s = s := by
  simp [d3Step, h]

set_option maxRecDepth 4000 in
/-- C3 (evaluation at the failing input): a full run after `restart()` with
the constructor constants. The completion callback has fired once when the
tick count reaches `maxTicks = 300`, but the d3 timer keeps running, and when
`alpha = (49/50)^n` falls below `alphaMin = 1/1000` at step 342 the `end`
event invokes `_onSimulationEnd` a second time: the callback fires twice in
one run (afterwards the timer is stopped and the state is stable). -/
theorem C3_completion_fires_twice :
    ((d3Step^[300]) (simRestart initSim)).completeFired = 1 ∧
    ((d3Step^[300]) (simRestart initSim)).tickCount = 300 ∧
    ((d3Step^[341]) (simRestart initSim)).completeFired = 1 ∧
    ((d3Step^[342]) (simRestart initSim)).completeFired = 2 ∧
    ((d3Step^[342]) (simRestart initSim)).d3Running = false ∧
    d3Step ((d3Step^[342]) (simRestart initSim)) = (d3Step^[342]) (simRestart initSim) := by
  refine ⟨by decide, by decide, by decide, by decide, by decide, ?_⟩
  apply d3Step_not_running
  decide

/-- The ordered sub-operations `updateData` performs once initialized, as tags
in an action log. -/
inductive UStep where
  | processDataStep
  | updateElementsStep
  | stopStep
  | setDataStep
  | restartStep
deriving DecidableEq

/-- The controller state that `updateData` touches: the simulation and the
log of performed sub-operations. -/
structure VizState where
  sim : SimState
  log : List UStep
deriving DecidableEq

/-- `NetworkVisualization.updateData(nodesData, edgesData)` once initialized:
process the data with `DataProcessor.processData`, reconcile the renderer
with `renderer.updateElements`, stop the previous simulation, set the new
data on the simulation, and restart it. Each sub-operation appends its tag. -/
def updateData (st : VizState) : VizState :=
  let st1 : VizState := { st with log := st.log ++ [UStep.processDataStep] }
  let st2 : VizState := { st1 with log := st1.log ++ [UStep.updateElementsStep] }
  let st3 : VizState := { sim := simStop st2.sim, log := st2.log ++ [UStep.stopStep] }
  let st4 : VizState := { sim := simSetData st3.sim, log := st3.log ++ [UStep.setDataStep] }
  { sim := simRestart st4.sim, log := st4.log ++ [UStep.restartStep] }

/-- The order the claim states: stop the running layout first, then process,
then reconcile, then set data, then restart. -/
def claimedUpdateOrder : List UStep :=
  [UStep.stopStep, UStep.processDataStep, UStep.updateElementsStep,
   UStep.setDataStep, UStep.restartStep]

/-- The order the code performs: process, reconcile, stop, set data, restart. -/
def actualUpdateOrder : List UStep :=
  [UStep.processDataStep, UStep.updateElementsStep, UStep.stopStep,
   UStep.setDataStep, UStep.restartStep]

/-- C5 counterexample: starting from an initialized state with an empty log,
`updateData` performs its sub-operations in the order process → reconcile →
stop → setData → restart, which is not the claimed order (stop is third, not
first). -/
theorem C5_update_order_counterexample :
    (updateData { sim := initSim, log := [] }).log = actualUpdateOrder ∧
    actualUpdateOrder ≠ claimedUpdateOrder := by
  exact ⟨rfl, by decide⟩

/-- C5 (amended): once initialized, `updateData` runs `processData` first,
then reconciles the renderer, then stops the running layout, then feeds the
simulation via `setData`, and finally restarts the layout at full energy
(`alpha` set to 1, the run active, the tick counter reset). -/
theorem C5_update_order (st : VizState) :
    (updateData st).log = st.log ++ actualUpdateOrder ∧
    (updateData st).sim.alphaNum = 1 ∧
    (updateData st).sim.alphaDen = 1 ∧
    (updateData st).sim.isRunning = true ∧
    (updateData st).sim.tickCount = 0 ∧
    (updateData st).sim.d3Running = true := by
  simp [updateData, simStop, simSetData, simRestart, actualUpdateOrder]

/-- An edge datum as `animateColorTransition` sees it: the ids of the
resolved endpoints (endpoint colors play no role before the callback throws). -/
structure AnimEdge where
  sourceId : String
  targetId : String
deriving DecidableEq

/-- The body of the `connectedEdges.each` callback of `animateColorTransition`
for one incident edge `d`.  In the source,
`const sourceColor = d.source.id === nodeId ? targetColor : d.source.color;`
`const targetColor = d.target.id === nodeId ? targetColor : d.target.color;`
declare block-scoped constants that shadow the `targetColor` parameter, so
each occurrence of `targetColor` inside the two initializers refers to the
inner `const targetColor` while it is still in its temporal dead zone:
evaluating it throws a `ReferenceError`.  When `d.source.id === nodeId` the
first initializer evaluates it; otherwise, when `d.target.id === nodeId`, the
second one does.  Only when neither endpoint matches (impossible for a
filtered incident edge) does the callback complete and, if the queue is
non-empty, schedule one `setTimeout` that will pop the next node. -/
def eachEdgeCallback (nodeId : String) (queueNonempty : Bool) (d : AnimEdge) :
    Except Unit Bool :=
  if d.sourceId = nodeId then Except.error ()
  else if d.targetId = nodeId then Except.error ()
  else Except.ok queueNonempty

/-- Running the `each` loop over the incident edges in order: the count of
scheduled queue-pop timeouts, and whether the loop threw (a throw aborts the
loop and propagates out of the promise executor). -/
def runEachLoop (nodeId : String) (queueNonempty : Bool) : List AnimEdge → ℕ × Bool
  | [] => (0, false)
  | d :: rest =>
      match eachEdgeCallback nodeId queueNonempty d with
      | Except.error _ => (0, true)
      | Except.ok b =>
          let r := runEachLoop nodeId queueNonempty rest
          ((if b then 1 else 0) + r.1, r.2)

/-- The observable outcome of one `animateColorTransition(nodeId, targetColor,
connectedNodes, isReverse)` call. `resolved` means the executor reached its
final `setTimeout`, so the returned promise resolves after the 300 ms
duration; `rejected` means the executor threw synchronously, so the promise
rejects and never resolves; `scheduledPops` counts the timeouts that would
each pop one node off the shared `connectedNodes` queue after the duration. -/
structure AnimResult where
  resolved : Bool
  rejected : Bool
  scheduledPops : ℕ
deriving DecidableEq

/-- `animateColorTransition` (renderer.js): the node fill transition starts,
then the callback above runs for every incident edge
(`d.source.id === nodeId || d.target.id === nodeId`), then — if nothing threw
— the final `setTimeout` schedules the resolution after the 300 ms duration.
`targetColor` and `isReverse` are kept as parameters for fidelity; neither
influences the scheduling. -/
def animateColorTransition (nodeId : String) (targetColor : String)
    (connectedNodes : List String) (isReverse : Bool)
    (edges : List AnimEdge) : AnimResult :=
  let connectedEdges :=
    edges.filter (fun d => d.sourceId = nodeId ∨ d.targetId = nodeId)
  let r := runEachLoop nodeId (!connectedNodes.isEmpty) connectedEdges
  { resolved := !r.2
    rejected := r.2
    scheduledPops := r.1 }

/-- C4 (evaluation at the failing input): calling
`animateColorTransition("a", color, queue, false)` where node "a" has one
incident edge makes the `each` callback throw a `ReferenceError` (the
shadowed `const targetColor` is read inside its own initializer), so the
promise rejects — it never resolves after the 300 ms step — and no queue-pop
timeout is ever scheduled: the wave never spreads, against the claimed one
pop per elapsed 300 ms. For a node with no incident edge the promise does
resolve, but the queue is never consulted, so again no pop is scheduled. -/
theorem C4_wave_scheduling_broken :
    (animateColorTransition "a" "#ff0000" ["b"] false
        [{ sourceId := "a", targetId := "b" }]).rejected = true ∧
    (animateColorTransition "a" "#ff0000" ["b"] false
        [{ sourceId := "a", targetId := "b" }]).resolved = false ∧
    (animateColorTransition "a" "#ff0000" ["b"] false
        [{ sourceId := "a", targetId := "b" }]).scheduledPops = 0 ∧
    (animateColorTransition "b" "#ff0000" ["c"] false
        [{ sourceId := "a", targetId := "b" }]).rejected = true ∧
    (animateColorTransition "a" "#ff0000" ["b", "c"] false []).resolved = true ∧
    (animateColorTransition "a" "#ff0000" ["b", "c"] false []).scheduledPops = 0 := by
  refine ⟨by decide, by decide, by decide, by decide, by decide, by decide⟩

/-- `Set.prototype.add`: a JS `Set` keeps insertion order and never holds a
member twice, so adding appends only when absent. -/
def jsSetAdd {α : Type} [DecidableEq α] (s : List α) (x : α) : List α :=
  if x ∈ s then s else s ++ [x]

/-- `Set.prototype.delete`. -/
def jsSetDelete {α : Type} [DecidableEq α] (s : List α) (x : α) : List α :=
  s.filter (fun y => y != x)

/-- `EventManager` (events.js): `listeners` is a `Map` from event name to a
`Set` of callbacks. Callbacks are identified by reference; they are modelled
as numeric ids. -/
structure EventManager where
  listeners : List (String × List ℕ)
deriving DecidableEq

/-- `on(eventName, callback)`: create the event's set when missing, then add
the callback to it. -/
def emOn (m : EventManager) (eventName : String) (cb : ℕ) : EventManager :=
  match jsMapGet m.listeners eventName with
  | none => { listeners := jsMapSet m.listeners eventName (jsSetAdd [] cb) }
  | some s => { listeners := jsMapSet m.listeners eventName (jsSetAdd s cb) }

/-- `off(eventName, callback)`: delete the callback from the event's set when
the set exists. -/
def emOff (m : EventManager) (eventName : String) (cb : ℕ) : EventManager :=
  match jsMapGet m.listeners eventName with
  | none => m
  | some s => { listeners := jsMapSet m.listeners eventName (jsSetDelete s cb) }

/-- `emit(eventName, data)`: the sequence of callback invocations, in set
insertion order. Each callback is invoked inside its own try/catch, so every
registered callback is invoked exactly once per emit regardless of exceptions
in the others. -/
def emEmit (m : EventManager) (eventName : String) : List ℕ :=
  (jsMapGet m.listeners eventName).getD []

theorem jsMapGet_mem_of_get {α : Type} :
    ∀ (m : List (String × α)) (k : String) (v : α),
      jsMapGet m k = some v → (k, v) ∈ m := by
  intro m
  induction m with
  | nil => intro k v h; simp [jsMapGet] at h
  | cons kv rest ih =>
      intro k v h
      obtain ⟨k2, v2⟩ := kv
      by_cases hk : k2 = k
      · subst hk
        simp [jsMapGet] at h
        subst h
        exact List.mem_cons_self _ _
      · simp [jsMapGet, hk] at h
        exact List.mem_cons_of_mem _ (ih k v h)

theorem jsSetAdd_mem_self (s : List ℕ) (x : ℕ) : x ∈ jsSetAdd s x := by
  unfold jsSetAdd
  by_cases h : x ∈ s <;> simp [h]

theorem jsSetAdd_of_mem (s : List ℕ) (x : ℕ) (h : x ∈ s) : jsSetAdd s x = s := by
  simp [jsSetAdd, h]

theorem count_jsSetAdd (s : List ℕ) (x : ℕ) (h : s.Nodup) :
    (jsSetAdd s x).count x = 1 := by
  unfold jsSetAdd
  by_cases hx : x ∈ s
  · simp only [hx, if_true]
    exact List.count_eq_one_of_mem h hx
  · simp only [hx, if_false]
    rw [List.count_append]
    rw [List.count_eq_zero.mpr hx]
    simp

theorem count_jsSetDelete (s : List ℕ) (x : ℕ) : (jsSetDelete s x).count x = 0 := by
  rw [List.count_eq_zero]
  intro hmem
  simp [jsSetDelete, List.mem_filter] at hmem

theorem jsMapSet_jsMapSet {α : Type} :
    ∀ (m : List (String × α)) (k : String) (v w : α),
      jsMapSet (jsMapSet m k v) k w = jsMapSet m k w := by
  intro m
  induction m with
  | nil => intro k v w; simp [jsMapSet]
  | cons kv rest ih =>
      intro k v w
      obtain ⟨k2, v2⟩ := kv
      by_cases hk : k2 = k
      · subst hk; simp [jsMapSet]
      · simp [jsMapSet, hk, ih]

theorem emOn_get_some (m : EventManager) (name : String) (cb : ℕ) (s : List ℕ)
    (h : jsMapGet m.listeners name = some s) :
    emOn m name cb = { listeners := jsMapSet m.listeners name (jsSetAdd s cb) } := by
  unfold emOn
  rw [h]

theorem emOff_get_some (m : EventManager) (name : String) (cb : ℕ) (s : List ℕ)
    (h : jsMapGet m.listeners name = some s) :
    emOff m name cb = { listeners := jsMapSet m.listeners name (jsSetDelete s cb) } := by
  unfold emOff
  rw [h]

/-- C10: EventBus registration is idempotent per (event name, callback) pair.
Starting from any manager whose sets are duplicate-free, registering the same
callback twice leaves it invoked exactly once per emit, and a single `off`
removes it entirely. -/
theorem C10_eventbus_idempotent (m : EventManager) (name : String) (cb : ℕ)
    (hwf : ∀ p ∈ m.listeners, List.Nodup p.2) :
    (emEmit (emOn (emOn m name cb) name cb) name).count cb = 1 ∧
    (emEmit (emOff (emOn (emOn m name cb) name cb) name cb) name).count cb = 0 := by
  have hset : ∃ s0 : List ℕ, s0.Nodup ∧
      emOn m name cb = { listeners := jsMapSet m.listeners name (jsSetAdd s0 cb) } := by
    unfold emOn
    cases hg : jsMapGet m.listeners name with
    | none => exact ⟨[], List.nodup_nil, rfl⟩
    | some s => exact ⟨s, hwf (name, s) (jsMapGet_mem_of_get _ _ _ hg), rfl⟩
  obtain ⟨s0, hs0, hm1⟩ := hset
  have hget1 : jsMapGet (emOn m name cb).listeners name = some (jsSetAdd s0 cb) := by
    rw [hm1]
    simp [jsMapGet_jsMapSet]
  have hm2 : emOn (emOn m name cb) name cb = emOn m name cb := by
    rw [emOn_get_some (emOn m name cb) name cb _ hget1]
    rw [jsSetAdd_of_mem _ _ (jsSetAdd_mem_self s0 cb)]
    rw [hm1]
    simp [jsMapSet_jsMapSet]
  constructor
  · rw [emEmit, hm2, hget1]
    exact count_jsSetAdd s0 cb hs0
  · rw [hm2, emOff_get_some (emOn m name cb) name cb _ hget1]
    simp only [emEmit, jsMapGet_jsMapSet, if_pos rfl, Option.getD_some]
    exact count_jsSetDelete _ cb

/-- C10 witness: on a fresh manager, two `on("nodeSelected", cb)` calls leave
the callback invoked exactly once per emit, and one `off` removes it. -/
theorem C10_eventbus_idempotent_witness :
    (emEmit (emOn (emOn ⟨[]⟩ "nodeSelected" 7) "nodeSelected" 7) "nodeSelected").count 7 = 1 ∧
    (emEmit (emOff (emOn (emOn ⟨[]⟩ "nodeSelected" 7) "nodeSelected" 7) "nodeSelected" 7)
        "nodeSelected").count 7 = 0 :=
  C10_eventbus_idempotent ⟨[]⟩ "nodeSelected" 7 (by simp)

/-- The `type` field of a queued transition descriptor. -/
inductive TransitionType where
  | select
  | unselect
  | restore
deriving DecidableEq

/-- A transition descriptor as `_queueTransition` receives it. `targetColor`
is an `Option`: `this.selectionColor` is `null` before any selection and
`originalColors.get(id)` is `undefined` for an unknown id. -/
structure Transition where
  type : TransitionType
  nodeId : String
  targetColor : Option String
  connectedNodes : List String
deriving DecidableEq

/-- An event emitted on the controller's event bus, with its payload. -/
inductive NetEvent where
  | nodeSelected (nodeId : String) (selectedNodes : List String)
  | nodeUnselected (nodeId : String) (selectedNodes : List String)
  | selectionCleared
deriving DecidableEq

/-- A node as the click handler receives it: its id and its current color. -/
structure NodeRef where
  id : String
  color : String
deriving DecidableEq

/-- The selection/transition state of `NetworkVisualization`, together with
ghost observation logs. `inFlight` holds the transitions currently awaited
(the code has no such list; it is the set of `animateColorTransition` calls
started and not yet settled, recorded to state the single-flight invariant).
`started` is the ghost log of all transitions handed to the renderer, in
order; `enqueued` the ghost log of all descriptors ever pushed, in order;
`errors` the `console.error` log; `events` the emitted bus events. -/
structure NetState where
  selectedNodes : List String
  selectionColor : Option String
  originalColors : List (String × String)
  transitionQueue : List Transition
  isTransitioning : Bool
  inFlight : List Transition
  started : List Transition
  enqueued : List Transition
  errors : List String
  events : List NetEvent
deriving DecidableEq

/-- The state the constructor builds: empty selection, no transition. -/
def initNetState : NetState :=
  { selectedNodes := []
    selectionColor := none
    originalColors := []
    transitionQueue := []
    isTransitioning := false
    inFlight := []
    started := []
    enqueued := []
    errors := []
    events := [] }

/-- The synchronous prefix of `_processTransitionQueue`, up to and including
the start of the awaited `animateColorTransition` call: the double guard
(`isTransitioning` or empty queue ⇒ return), then `isTransitioning = true`
and `shift()` of the front descriptor, which becomes in flight. -/
def processTransitionQueue (s : NetState) : NetState :=
  if s.isTransitioning then s
  else
    match s.transitionQueue with
    | [] => s
    | t :: rest =>
        { s with
          transitionQueue := rest
          isTransitioning := true
          inFlight := s.inFlight ++ [t]
          started := s.started ++ [t] }

/-- `_queueTransition(transition)`: push onto the queue and, when no
transition is in flight, start draining. -/
def queueTransition (t : Transition) (s : NetState) : NetState :=
  let s1 := { s with
    transitionQueue := s.transitionQueue ++ [t]
    enqueued := s.enqueued ++ [t] }
  if s1.isTransitioning then s1 else processTransitionQueue s1

/-- Resumption of `_processTransitionQueue` after the awaited promise settles
(`ok = false` when it rejected: the catch block logs the error). Regardless of
the outcome, `isTransitioning` is cleared, the settled transition is no longer
in flight, and the drain recurses. -/
def finishTransition (ok : Bool) (s : NetState) : NetState :=
  let s1 := { s with
    errors := if ok then s.errors else s.errors ++ ["Transition failed"]
    isTransitioning := false
    inFlight := s.inFlight.drop 1 }
  processTransitionQueue s1

/-- `_selectNode(node)`, with `connOf` standing for
`renderer.getConnectedNodes` (ids of the connected nodes): capture the
original color only when absent; the first node selected into an empty
selection fixes `selectionColor`; queue a `select` transition toward
`selectionColor`; add to `selectedNodes`; emit `nodeSelected`. -/
def selectNode (connOf : String → List String) (n : NodeRef) (s : NetState) : NetState :=
  let s1 := if (jsMapGet s.originalColors n.id).isSome then s
    else { s with originalColors := jsMapSet s.originalColors n.id n.color }
  let s2 := if s1.selectedNodes = [] then { s1 with selectionColor := some n.color } else s1
  let s3 := queueTransition
    { type := TransitionType.select
      nodeId := n.id
      targetColor := s2.selectionColor
      connectedNodes := connOf n.id } s2
  let s4 := { s3 with selectedNodes := jsSetAdd s3.selectedNodes n.id }
  { s4 with events := s4.events ++ [NetEvent.nodeSelected n.id s4.selectedNodes] }

/-- `_restoreAllColors()`: queue a `restore` transition toward the original
color for every currently selected node, then clear the selection state and
emit `selectionCleared`. -/
def restoreAllColors (connOf : String → List String) (s : NetState) : NetState :=
  let s1 := s.selectedNodes.foldl
    (fun st nodeId =>
      queueTransition
        { type := TransitionType.restore
          nodeId := nodeId
          targetColor := jsMapGet st.originalColors nodeId
          connectedNodes := connOf nodeId } st) s
  { s1 with
    selectedNodes := []
    selectionColor := none
    events := s1.events ++ [NetEvent.selectionCleared] }

/-- `_unselectNode(node)`: queue an `unselect` transition toward the captured
original color; remove from `selectedNodes`; when the selection became empty,
run `_restoreAllColors`; emit `nodeUnselected`. -/
def unselectNode (connOf : String → List String) (n : NodeRef) (s : NetState) : NetState :=
  let s1 := queueTransition
    { type := TransitionType.unselect
      nodeId := n.id
      targetColor := jsMapGet s.originalColors n.id
      connectedNodes := connOf n.id } s
  let s2 := { s1 with selectedNodes := jsSetDelete s1.selectedNodes n.id }
  let s3 := if s2.selectedNodes = [] then restoreAllColors connOf s2 else s2
  { s3 with events := s3.events ++ [NetEvent.nodeUnselected n.id s3.selectedNodes] }

/-- `_handleNodeClick(node)`: dispatch on membership in `selectedNodes`. -/
def handleNodeClick (connOf : String → List String) (n : NodeRef) (s : NetState) : NetState :=
  if n.id ∈ s.selectedNodes then unselectNode connOf n s else selectNode connOf n s

/-- `_handleBackgroundClick()`: restore all colors only when a selection
exists. -/
def handleBackgroundClick (connOf : String → List String) (s : NetState) : NetState :=
  if s.selectedNodes = [] then s else restoreAllColors connOf s

/-- The controller states reachable through the click handlers and through
settlement of an in-flight animation promise (a promise can settle only while
a transition is in flight). -/
inductive Reachable (connOf : String → List String) : NetState → Prop where
  | init : Reachable connOf initNetState
  | click (n : NodeRef) (s : NetState) :
      Reachable connOf s → Reachable connOf (handleNodeClick connOf n s)
  | background (s : NetState) :
      Reachable connOf s → Reachable connOf (handleBackgroundClick connOf s)
  | settle (ok : Bool) (s : NetState) :
      Reachable connOf s → s.inFlight ≠ [] → Reachable connOf (finishTransition ok s)

/-- The serialized-queue invariant: at most one transition in flight,
`isTransitioning` exactly guards it, and the ghost logs decompose the pushes
as the started prefix followed by the pending queue (FIFO from the front). -/
def QueueInv (s : NetState) : Prop :=
  s.inFlight.length ≤ 1 ∧
  (s.isTransitioning = true ↔ s.inFlight ≠ []) ∧
  s.enqueued = s.started ++ s.transitionQueue

theorem processTransitionQueue_set_errors (s : NetState) (e : List String) :
    processTransitionQueue { s with errors := e }
      = { processTransitionQueue s with errors := e } := by
  unfold processTransitionQueue
  by_cases h : s.isTransitioning
  · simp [h]
  · cases hq : s.transitionQueue <;> simp [h, hq]

theorem finishTransition_eq (ok : Bool) (s : NetState) :
    finishTransition ok s =
      { processTransitionQueue
          { s with isTransitioning := false, inFlight := s.inFlight.drop 1 } with
        errors := if ok then s.errors else s.errors ++ ["Transition failed"] } := by
  unfold finishTransition
  exact processTransitionQueue_set_errors
    { s with isTransitioning := false, inFlight := s.inFlight.drop 1 }
    (if ok then s.errors else s.errors ++ ["Transition failed"])

theorem queueInv_processTransitionQueue (s : NetState) (h : QueueInv s) :
    QueueInv (processTransitionQueue s) := by
  obtain ⟨h1, h2, h3⟩ := h
  unfold processTransitionQueue
  by_cases ht : s.isTransitioning
  · simp only [ht, if_true]
    exact ⟨h1, h2, h3⟩
  · have hfl : s.inFlight = [] := by
      by_contra hne
      exact ht (h2.mpr hne)
    cases hq : s.transitionQueue with
    | nil =>
        simp only [ht, if_false, hq]
        exact ⟨h1, h2, h3⟩
    | cons t rest =>
        simp only [ht, if_false, hq]
        refine ⟨?_, ?_, ?_⟩
        · simp [hfl]
        · simp [hfl]
        · rw [h3, hq, hfl]
          simp

theorem queueInv_ite (c : Prop) [Decidable c] (a b : NetState)
    (ha : QueueInv a) (hb : QueueInv b) : QueueInv (if c then a else b) := by
  by_cases h : c
  · simpa [h] using ha
  · simpa [h] using hb

theorem queueInv_queueTransition (t : Transition) (s : NetState) (h : QueueInv s) :
    QueueInv (queueTransition t s) := by
  obtain ⟨h1, h2, h3⟩ := h
  have hinv : QueueInv
      { s with
        transitionQueue := s.transitionQueue ++ [t]
        enqueued := s.enqueued ++ [t] } := by
    refine ⟨h1, h2, ?_⟩
    simp [h3]
  unfold queueTransition
  exact queueInv_ite _ _ _ hinv (queueInv_processTransitionQueue _ hinv)

theorem queueInv_finishTransition (ok : Bool) (s : NetState) (h : QueueInv s) :
    QueueInv (finishTransition ok s) := by
  obtain ⟨h1, h2, h3⟩ := h
  rw [finishTransition_eq]
  have hdrop : s.inFlight.drop 1 = [] := by
    cases hf : s.inFlight with
    | nil => rfl
    | cons a rest =>
        rw [hf] at h1
        simp at h1
        simp [h1]
  have hbase : QueueInv
      { s with isTransitioning := false, inFlight := s.inFlight.drop 1 } := by
    refine ⟨?_, ?_, ?_⟩
    · simp [hdrop]
    · simp [hdrop]
    · simpa using h3
  have h4 := queueInv_processTransitionQueue _ hbase
  obtain ⟨h5, h6, h7⟩ := h4
  exact ⟨by simpa using h5, by simpa using h6, by simpa using h7⟩

theorem queueInv_foldl_restore (connOf : String → List String) (ids : List String) :
    ∀ (s : NetState), QueueInv s →
      QueueInv (ids.foldl
        (fun st nodeId =>
          queueTransition
            { type := TransitionType.restore
              nodeId := nodeId
              targetColor := jsMapGet st.originalColors nodeId
              connectedNodes := connOf nodeId } st) s) := by
  induction ids with
  | nil => intro s h; exact h
  | cons id2 rest ih =>
      intro s h
      simp only [List.foldl_cons]
      exact ih _ (queueInv_queueTransition _ _ h)

theorem queueInv_restoreAllColors (connOf : String → List String) (s : NetState)
    (h : QueueInv s) : QueueInv (restoreAllColors connOf s) := by
  unfold restoreAllColors
  have h1 := queueInv_foldl_restore connOf s.selectedNodes s h
  obtain ⟨h2, h3, h4⟩ := h1
  exact ⟨by simpa using h2, by simpa using h3, by simpa using h4⟩

theorem queueInv_selectNode (connOf : String → List String) (n : NodeRef) (s : NetState)
    (h : QueueInv s) : QueueInv (selectNode connOf n s) := by
  unfold selectNode
  have h1 : QueueInv (if (jsMapGet s.originalColors n.id).isSome then s
      else { s with originalColors := jsMapSet s.originalColors n.id n.color }) := by
    by_cases hc : (jsMapGet s.originalColors n.id).isSome
    · simpa [hc] using h
    · obtain ⟨a, b, c⟩ := h
      simp only [hc, if_false]
      exact ⟨a, b, c⟩
  set s1 := if (jsMapGet s.originalColors n.id).isSome then s
      else { s with originalColors := jsMapSet s.originalColors n.id n.color } with hs1
  have h2 : QueueInv (if s1.selectedNodes = [] then
      { s1 with selectionColor := some n.color } else s1) := by
    by_cases hc : s1.selectedNodes = []
    · obtain ⟨a, b, c⟩ := h1
      simp only [hc, if_true]
      exact ⟨a, b, c⟩
    · simpa [hc] using h1
  set s2 := if s1.selectedNodes = [] then
      { s1 with selectionColor := some n.color } else s1 with hs2
  have h3 := queueInv_queueTransition
    { type := TransitionType.select
      nodeId := n.id
      targetColor := s2.selectionColor
      connectedNodes := connOf n.id } s2 h2
  obtain ⟨a, b, c⟩ := h3
  exact ⟨by simpa using a, by simpa using b, by simpa using c⟩

theorem queueInv_unselectNode (connOf : String → List String) (n : NodeRef) (s : NetState)
    (h : QueueInv s) : QueueInv (unselectNode connOf n s) := by
  unfold unselectNode
  have h1 := queueInv_queueTransition
    { type := TransitionType.unselect
      nodeId := n.id
      targetColor := jsMapGet s.originalColors n.id
      connectedNodes := connOf n.id } s h
  set s1 := queueTransition
    { type := TransitionType.unselect
      nodeId := n.id
      targetColor := jsMapGet s.originalColors n.id
      connectedNodes := connOf n.id } s with hs1
  have h2 : QueueInv { s1 with selectedNodes := jsSetDelete s1.selectedNodes n.id } := by
    obtain ⟨a, b, c⟩ := h1
    exact ⟨a, b, c⟩
  set s2 := { s1 with selectedNodes := jsSetDelete s1.selectedNodes n.id } with hs2
  have h3 : QueueInv (if s2.selectedNodes = [] then restoreAllColors connOf s2 else s2) :=
    queueInv_ite _ _ _ (queueInv_restoreAllColors connOf s2 h2) h2
  set s3 := if s2.selectedNodes = [] then restoreAllColors connOf s2 else s2 with hs3
  obtain ⟨a, b, c⟩ := h3
  exact ⟨by simpa using a, by simpa using b, by simpa using c⟩

theorem queueInv_reachable (connOf : String → List String) (s : NetState)
    (h : Reachable connOf s) : QueueInv s := by
  induction h with
  | init => exact ⟨by simp [initNetState], by simp [initNetState], by simp [initNetState]⟩
  | click n s2 _ ih =>
      unfold handleNodeClick
      by_cases hc : n.id ∈ s2.selectedNodes
      · simp only [hc, if_true]
        exact queueInv_unselectNode connOf n s2 ih
      · simp only [hc, if_false]
        exact queueInv_selectNode connOf n s2 ih
  | background s2 _ ih =>
      unfold handleBackgroundClick
      by_cases hc : s2.selectedNodes = []
      · simpa [hc] using ih
      · simp only [hc, if_false]
        exact queueInv_restoreAllColors connOf s2 ih
  | settle ok s2 _ _ ih =>
      exact queueInv_finishTransition ok s2 ih

/-- C1: the transition queue is serialized. In every reachable controller
state at most one transition is in flight and `isTransitioning` guards it
exactly; the ghost logs decompose all pushes as the started transitions, in
start order, followed by the pending queue — so descriptors are consumed
strictly FIFO from the front and the queue is never processed concurrently.
Settlement of the awaited animation behaves identically on the queue whether
the promise fulfilled or rejected (the rejection is only logged): the drain
proceeds to the next queued descriptor either way. -/
theorem C1_transition_queue_serialized (connOf : String → List String) (s : NetState)
    (h : Reachable connOf s) :
    s.inFlight.length ≤ 1 ∧
    (s.isTransitioning = true ↔ s.inFlight ≠ []) ∧
    s.enqueued = s.started ++ s.transitionQueue ∧
    (finishTransition false s).errors = s.errors ++ ["Transition failed"] ∧
    (∀ ok : Bool,
      (finishTransition ok s).started = (finishTransition true s).started ∧
      (finishTransition ok s).transitionQueue = (finishTransition true s).transitionQueue ∧
      (finishTransition ok s).inFlight = (finishTransition true s).inFlight ∧
      (finishTransition ok s).isTransitioning = (finishTransition true s).isTransitioning) := by
  obtain ⟨h1, h2, h3⟩ := queueInv_reachable connOf s h
  refine ⟨h1, h2, h3, ?_, ?_⟩
  · rw [finishTransition_eq]
    simp
  · intro ok
    rw [finishTransition_eq, finishTransition_eq]
    simp

/-- C1 witness: the state after one click on node "a" from the initial state
is reachable and satisfies the serialized-queue properties. -/
theorem C1_transition_queue_serialized_witness :
    (handleNodeClick (fun _ => []) { id := "a", color := "#111111" } initNetState).inFlight.length ≤ 1 ∧
    ((handleNodeClick (fun _ => []) { id := "a", color := "#111111" } initNetState).isTransitioning = true ↔
      (handleNodeClick (fun _ => []) { id := "a", color := "#111111" } initNetState).inFlight ≠ []) ∧
    (handleNodeClick (fun _ => []) { id := "a", color := "#111111" } initNetState).enqueued =
      (handleNodeClick (fun _ => []) { id := "a", color := "#111111" } initNetState).started ++
      (handleNodeClick (fun _ => []) { id := "a", color := "#111111" } initNetState).transitionQueue ∧
    (finishTransition false (handleNodeClick (fun _ => []) { id := "a", color := "#111111" } initNetState)).errors =
      (handleNodeClick (fun _ => []) { id := "a", color := "#111111" } initNetState).errors ++
      ["Transition failed"] ∧
    (∀ ok : Bool,
      (finishTransition ok (handleNodeClick (fun _ => []) { id := "a", color := "#111111" } initNetState)).started =
        (finishTransition true (handleNodeClick (fun _ => []) { id := "a", color := "#111111" } initNetState)).started ∧
      (finishTransition ok (handleNodeClick (fun _ => []) { id := "a", color := "#111111" } initNetState)).transitionQueue =
        (finishTransition true (handleNodeClick (fun _ => []) { id := "a", color := "#111111" } initNetState)).transitionQueue ∧
      (finishTransition ok (handleNodeClick (fun _ => []) { id := "a", color := "#111111" } initNetState)).inFlight =
        (finishTransition true (handleNodeClick (fun _ => []) { id := "a", color := "#111111" } initNetState)).inFlight ∧
      (finishTransition ok (handleNodeClick (fun _ => []) { id := "a", color := "#111111" } initNetState)).isTransitioning =
        (finishTransition true (handleNodeClick (fun _ => []) { id := "a", color := "#111111" } initNetState)).isTransitioning) :=
  C1_transition_queue_serialized (fun _ => []) _
    (Reachable.click { id := "a", color := "#111111" } initNetState Reachable.init)

theorem ptq_selectedNodes (s : NetState) :
    (processTransitionQueue s).selectedNodes = s.selectedNodes := by
  unfold processTransitionQueue
  by_cases h : s.isTransitioning
  · simp [h]
  · cases hq : s.transitionQueue <;> simp [h, hq]

theorem ptq_selectionColor (s : NetState) :
    (processTransitionQueue s).selectionColor = s.selectionColor := by
  unfold processTransitionQueue
  by_cases h : s.isTransitioning
  · simp [h]
  · cases hq : s.transitionQueue <;> simp [h, hq]

theorem ptq_originalColors (s : NetState) :
    (processTransitionQueue s).originalColors = s.originalColors := by
  unfold processTransitionQueue
  by_cases h : s.isTransitioning
  · simp [h]
  · cases hq : s.transitionQueue <;> simp [h, hq]

theorem ptq_enqueued (s : NetState) :
    (processTransitionQueue s).enqueued = s.enqueued := by
  unfold processTransitionQueue
  by_cases h : s.isTransitioning
  · simp [h]
  · cases hq : s.transitionQueue <;> simp [h, hq]

theorem ptq_events (s : NetState) :
    (processTransitionQueue s).events = s.events := by
  unfold processTransitionQueue
  by_cases h : s.isTransitioning
  · simp [h]
  · cases hq : s.transitionQueue <;> simp [h, hq]

theorem qt_selectedNodes (t : Transition) (s : NetState) :
    (queueTransition t s).selectedNodes = s.selectedNodes := by
  unfold queueTransition
  by_cases h : s.isTransitioning <;> simp [h, ptq_selectedNodes]

theorem qt_selectionColor (t : Transition) (s : NetState) :
    (queueTransition t s).selectionColor = s.selectionColor := by
  unfold queueTransition
  by_cases h : s.isTransitioning <;> simp [h, ptq_selectionColor]

theorem qt_originalColors (t : Transition) (s : NetState) :
    (queueTransition t s).originalColors = s.originalColors := by
  unfold queueTransition
  by_cases h : s.isTransitioning <;> simp [h, ptq_originalColors]

theorem qt_enqueued (t : Transition) (s : NetState) :
    (queueTransition t s).enqueued = s.enqueued ++ [t] := by
  unfold queueTransition
  by_cases h : s.isTransitioning <;> simp [h, ptq_enqueued]

theorem qt_events (t : Transition) (s : NetState) :
    (queueTransition t s).events = s.events := by
  unfold queueTransition
  by_cases h : s.isTransitioning <;> simp [h, ptq_events]

theorem selectNode_originalColors (connOf : String → List String) (n : NodeRef) (s : NetState) :
    (selectNode connOf n s).originalColors =
      (if (jsMapGet s.originalColors n.id).isSome then s.originalColors
       else jsMapSet s.originalColors n.id n.color) := by
  simp only [selectNode]
  split_ifs with h1 h2 <;> simp [qt_originalColors, h1]

theorem selectNode_selectionColor (connOf : String → List String) (n : NodeRef) (s : NetState) :
    (selectNode connOf n s).selectionColor =
      (if s.selectedNodes = [] then some n.color else s.selectionColor) := by
  simp only [selectNode]
  split_ifs <;> simp_all [qt_selectionColor]

theorem selectNode_enqueued (connOf : String → List String) (n : NodeRef) (s : NetState) :
    (selectNode connOf n s).enqueued = s.enqueued ++
      [{ type := TransitionType.select
         nodeId := n.id
         targetColor := if s.selectedNodes = [] then some n.color else s.selectionColor
         connectedNodes := connOf n.id }] := by
  simp only [selectNode]
  split_ifs <;> simp_all [qt_enqueued]

theorem restoreAllColors_of_empty (connOf : String → List String) (s : NetState)
    (h : s.selectedNodes = []) :
    restoreAllColors connOf s =
      { s with
        selectedNodes := []
        selectionColor := none
        events := s.events ++ [NetEvent.selectionCleared] } := by
  unfold restoreAllColors
  rw [h]
  simp

theorem unselectNode_enqueued (connOf : String → List String) (n : NodeRef) (s : NetState) :
    (unselectNode connOf n s).enqueued = s.enqueued ++
      [{ type := TransitionType.unselect
         nodeId := n.id
         targetColor := jsMapGet s.originalColors n.id
         connectedNodes := connOf n.id }] := by
  simp only [unselectNode]
  split_ifs with h1
  · rw [restoreAllColors_of_empty connOf _ (by simpa using h1)]
    simp [qt_enqueued]
  · simp [qt_enqueued]

/-- C2: selection color semantics. Selecting `n` captures `n`'s current color
in `originalColors` only when no entry exists; when the selection was empty
`selectionColor` becomes `n.color` (otherwise it is unchanged), and the queued
`select` descriptor targets exactly that `selectionColor` — so every
subsequently selected node's transition targets the first-selected node's
color. Unselecting queues a transition targeting `originalColors[n.id]`, and
select followed by unselect queues a restore toward the pre-selection color
(the captured entry if one existed, else the color `n` had when selected). -/
theorem C2_selection_color_semantics (connOf : String → List String) (n : NodeRef)
    (s : NetState) :
    (selectNode connOf n s).originalColors =
      (if (jsMapGet s.originalColors n.id).isSome then s.originalColors
       else jsMapSet s.originalColors n.id n.color) ∧
    (selectNode connOf n s).selectionColor =
      (if s.selectedNodes = [] then some n.color else s.selectionColor) ∧
    (selectNode connOf n s).enqueued = s.enqueued ++
      [{ type := TransitionType.select
         nodeId := n.id
         targetColor := if s.selectedNodes = [] then some n.color else s.selectionColor
         connectedNodes := connOf n.id }] ∧
    (unselectNode connOf n s).enqueued = s.enqueued ++
      [{ type := TransitionType.unselect
         nodeId := n.id
         targetColor := jsMapGet s.originalColors n.id
         connectedNodes := connOf n.id }] ∧
    (unselectNode connOf n (selectNode connOf n s)).enqueued =
      (selectNode connOf n s).enqueued ++
      [{ type := TransitionType.unselect
         nodeId := n.id
         targetColor := some ((jsMapGet s.originalColors n.id).getD n.color)
         connectedNodes := connOf n.id }] := by
  refine ⟨selectNode_originalColors connOf n s, selectNode_selectionColor connOf n s,
    selectNode_enqueued connOf n s, unselectNode_enqueued connOf n s, ?_⟩
  rw [unselectNode_enqueued connOf n (selectNode connOf n s)]
  rw [selectNode_originalColors connOf n s]
  by_cases h1 : (jsMapGet s.originalColors n.id).isSome
  · obtain ⟨c, hc⟩ := Option.isSome_iff_exists.mp h1
    simp [h1, hc]
  · have h0 : jsMapGet s.originalColors n.id = none := by
      cases hg : jsMapGet s.originalColors n.id
      · rfl
      · rw [hg] at h1
        simp at h1
    simp [h1, h0, jsMapGet_jsMapSet]

/-- C9: unselecting the last remaining selected node takes the restore-all
path. The `unselect` transition is the only descriptor queued (the restore
loop runs on an already-empty selection), `selectionColor` is cleared, and a
`selectionCleared` event is emitted in addition to (and before)
`nodeUnselected`. -/
theorem C9_unselect_last (connOf : String → List String) (n : NodeRef) (s : NetState)
    (h : s.selectedNodes = [n.id]) :
    (unselectNode connOf n s).selectionColor = none ∧
    (unselectNode connOf n s).selectedNodes = [] ∧
    (unselectNode connOf n s).enqueued = s.enqueued ++
      [{ type := TransitionType.unselect
         nodeId := n.id
         targetColor := jsMapGet s.originalColors n.id
         connectedNodes := connOf n.id }] ∧
    (unselectNode connOf n s).events =
      s.events ++ [NetEvent.selectionCleared, NetEvent.nodeUnselected n.id []] := by
  have hdel : jsSetDelete
      (queueTransition
        { type := TransitionType.unselect
          nodeId := n.id
          targetColor := jsMapGet s.originalColors n.id
          connectedNodes := connOf n.id } s).selectedNodes n.id = [] := by
    rw [qt_selectedNodes, h]
    simp [jsSetDelete]
  refine ⟨?_, ?_, unselectNode_enqueued connOf n s, ?_⟩
  · simp only [unselectNode]
    rw [if_pos hdel, restoreAllColors_of_empty connOf _ (by simpa using hdel)]
  · simp only [unselectNode]
    rw [if_pos hdel, restoreAllColors_of_empty connOf _ (by simpa using hdel)]
  · simp only [unselectNode]
    rw [if_pos hdel, restoreAllColors_of_empty connOf _ (by simpa using hdel)]
    simp [qt_events]

/-- A concrete controller state with exactly one selected node "a". -/
def oneSelectedState : NetState :=
  { initNetState with
    selectedNodes := ["a"]
    selectionColor := some "#aabbcc"
    originalColors := [("a", "#112233")] }

/-- C9 witness: unselecting "a" in the one-node-selected state clears the
selection color, empties the selection, queues exactly the one `unselect`
descriptor, and emits `selectionCleared` then `nodeUnselected`. -/
theorem C9_unselect_last_witness :
    (unselectNode (fun _ => []) { id := "a", color := "#445566" } oneSelectedState).selectionColor
      = none ∧
    (unselectNode (fun _ => []) { id := "a", color := "#445566" } oneSelectedState).selectedNodes
      = [] ∧
    (unselectNode (fun _ => []) { id := "a", color := "#445566" } oneSelectedState).enqueued =
      oneSelectedState.enqueued ++
      [{ type := TransitionType.unselect
         nodeId := "a"
         targetColor := jsMapGet oneSelectedState.originalColors "a"
         connectedNodes := [] }] ∧
    (unselectNode (fun _ => []) { id := "a", color := "#445566" } oneSelectedState).events =
      oneSelectedState.events ++
      [NetEvent.selectionCleared, NetEvent.nodeUnselected "a" []] :=
  C9_unselect_last (fun _ => []) { id := "a", color := "#445566" } oneSelectedState rfl

end NetworkViz
